import Mathlib

/-!
Shallow embedding of the `Filters-embedded` repository.

Sources embedded here:
* `src/kalman/src/lib.rs` — the rulinalg-based Kalman filter/smoother
  (`KalmanFilter`, `KalmanState`, `predict_step`, `update_step`,
  `filter_step`, `smoothing_step`, `KalmanFilter::filter`,
  `KalmanFilter::smooth`).
* `src/src/main.rs` — the extended-Kalman-filter demo loop with the
  nonlinear observation model `[x³, x·y]`.
* `src/highpass/src/lib.rs` — `highpass_filter`.

Floating point (`f64`/`f32`) is idealised as exact rational arithmetic `ℚ`;
vectors are `Fin n → ℚ` and matrices are Mathlib's `Matrix (Fin n) (Fin m) ℚ`.
A Rust panic (an `expect` on a failed inversion, or an out-of-bounds index)
is modelled as `Option.none` or an explicit `Except.error` of `PanicKind`:
in the source these abort the process, so no value reaches the caller.
-/

namespace FiltersEmbedded

/-- Fallible matrix inversion, modelling rulinalg's `Matrix::inverse`
(which returns `Err` exactly when the matrix is not invertible, and the
true inverse otherwise).  Over the field `ℚ` a square matrix is invertible
iff its determinant is nonzero, and then the inverse is
`det⁻¹ • adjugate`. -/
def rInverse {k : ℕ} (A : Matrix (Fin k) (Fin k) ℚ) :
    Option (Matrix (Fin k) (Fin k) ℚ) :=
  if A.det = 0 then none else some (A.det⁻¹ • A.adjugate)

/-- When the determinant is nonzero, `rInverse` returns Mathlib's
nonsingular inverse `A⁻¹`. -/
theorem rInverse_eq_inv {k : ℕ} (A : Matrix (Fin k) (Fin k) ℚ)
    (hdet : A.det ≠ 0) : rInverse A = some A⁻¹ := by
  rw [rInverse, if_neg hdet, Matrix.inv_def, Ring.inverse_eq_inv]

/-- `rInverse` succeeds only on matrices with nonzero determinant, and then
returns the inverse. -/
theorem rInverse_some {k : ℕ} {A B : Matrix (Fin k) (Fin k) ℚ}
    (hAB : rInverse A = some B) : A.det ≠ 0 ∧ B = A⁻¹ := by
  by_cases hdet : A.det = 0
  · rw [rInverse, if_pos hdet] at hAB
    exact absurd hAB (by simp)
  · refine ⟨hdet, ?_⟩
    rw [rInverse_eq_inv A hdet] at hAB
    exact (Option.some_injective _ hAB).symm

/-- `src/kalman/src/lib.rs`: the `KalmanFilter` struct.
`n` is the state dimension, `m` the observation dimension. -/
structure KalmanFilter (n m : ℕ) where
  q : Matrix (Fin n) (Fin n) ℚ   -- Process noise covariance
  r : Matrix (Fin m) (Fin m) ℚ   -- Measurement noise covariance
  h : Matrix (Fin m) (Fin n) ℚ   -- Observation matrix
  f : Matrix (Fin n) (Fin n) ℚ   -- State transition matrix
  x0 : Fin n → ℚ                  -- State variable initial value
  p0 : Matrix (Fin n) (Fin n) ℚ  -- State covariance initial value

/-- `src/kalman/src/lib.rs`: the `KalmanState` struct. -/
structure KalmanState (n : ℕ) where
  x : Fin n → ℚ                  -- State vector
  p : Matrix (Fin n) (Fin n) ℚ   -- State covariance

/-- `src/kalman/src/lib.rs`, `predict_step`:
`xp = f * init.x`, `pp = f * init.p * fᵀ + q`.  Total: no failure modes. -/
def predict_step {n m : ℕ} (kalman_filter : KalmanFilter n m)
    (init : KalmanState n) : KalmanState n :=
  { x := kalman_filter.f.mulVec init.x
    p := kalman_filter.f * init.p * kalman_filter.f.transpose + kalman_filter.q }

/-- The innovation covariance `S = h * pred.p * hᵀ + r` inverted inside
`update_step` (`src/kalman/src/lib.rs` lines 92–95). -/
def innovation_cov {n m : ℕ} (kalman_filter : KalmanFilter n m)
    (pred : KalmanState n) : Matrix (Fin m) (Fin m) ℚ :=
  kalman_filter.h * pred.p * kalman_filter.h.transpose + kalman_filter.r

/-- The Kalman gain `k = pred.p * hᵀ * S⁻¹` as computed by `update_step`,
`none` when the inversion of `S` fails (the source then panics through
`expect`). -/
def kalman_gain {n m : ℕ} (kalman_filter : KalmanFilter n m)
    (pred : KalmanState n) : Option (Matrix (Fin n) (Fin m) ℚ) :=
  (rInverse (innovation_cov kalman_filter pred)).map
    (fun sInv => pred.p * kalman_filter.h.transpose * sInv)

/-- `src/kalman/src/lib.rs`, `update_step`.  The source computes the gain
`k = pred.p * hᵀ * (h * pred.p * hᵀ + r).inverse().expect(..)` — the
`expect` panics when `S` is singular, modelled as `none` — and then
`x = pred.x + k * (measure − h * pred.x)`,
`p = (identity − k * h) * pred.p`. -/
def update_step {n m : ℕ} (kalman_filter : KalmanFilter n m)
    (pred : KalmanState n) (measure : Fin m → ℚ) : Option (KalmanState n) :=
  match rInverse (innovation_cov kalman_filter pred) with
  | none => none
  | some sInv =>
    let k := pred.p * kalman_filter.h.transpose * sInv
    some { x := pred.x + k.mulVec (measure - kalman_filter.h.mulVec pred.x)
           p := (1 - k * kalman_filter.h) * pred.p }

/-- `src/kalman/src/lib.rs`, `filter_step`: predict then update. -/
def filter_step {n m : ℕ} (kalman_filter : KalmanFilter n m)
    (init : KalmanState n) (measure : Fin m → ℚ) :
    Option (KalmanState n × KalmanState n) :=
  let pred := predict_step kalman_filter init
  (update_step kalman_filter pred measure).map (fun upd => (upd, pred))

/-- The loop body of `KalmanFilter::filter`
(`src/kalman/src/lib.rs` lines 40–43) as a recursion: the loop pushes
`filtered[k] = update_step(self, predicted[k], data[k])` and
`predicted[k+1] = predict_step(self, filtered[k])`, so the recursion
threads the freshly predicted estimate into the tail.  A panic inside
`update_step` aborts the whole run (`none`). -/
def filterAux {n m : ℕ} (kalman_filter : KalmanFilter n m)
    (pred : KalmanState n) :
    List (Fin m → ℚ) → Option (List (KalmanState n) × List (KalmanState n))
  | [] => some ([], [pred])
  | z :: rest =>
    match update_step kalman_filter pred z with
    | none => none
    | some filt =>
      match filterAux kalman_filter (predict_step kalman_filter filt) rest with
      | none => none
      | some (fs, ps) => some (filt :: fs, pred :: ps)

/-- `src/kalman/src/lib.rs`, `KalmanFilter::filter`: starts from
`predicted[0] = { x0, p0 }` and runs the predict/update loop over `data`,
returning `(filtered, predicted)`. -/
def filterRun {n m : ℕ} (kalman_filter : KalmanFilter n m)
    (data : List (Fin m → ℚ)) :
    Option (List (KalmanState n) × List (KalmanState n)) :=
  filterAux kalman_filter { x := kalman_filter.x0, p := kalman_filter.p0 } data

/-- `src/kalman/src/lib.rs`, `smoothing_step`:
`j = filtered.p * fᵀ * predicted.p.inverse().expect(..)` (panic on failure,
modelled `none`), then
`x = filtered.x + j * (init.x − predicted.x)`,
`p = filtered.p + j * (init.p − predicted.p) * jᵀ`. -/
def smoothing_step {n m : ℕ} (kalman_filter : KalmanFilter n m)
    (init filtered predicted : KalmanState n) : Option (KalmanState n) :=
  match rInverse predicted.p with
  | none => none
  | some pInv =>
    let j := filtered.p * kalman_filter.f.transpose * pInv
    some { x := filtered.x + j.mulVec (init.x - predicted.x)
           p := filtered.p + j * (init.p - predicted.p) * j.transpose }

/-- The two ways `KalmanFilter::smooth` can panic: an out-of-bounds (or
underflowing) index, or the `expect` on a failed inversion inside
`smoothing_step`. -/
inductive PanicKind where
  | indexOutOfBounds : PanicKind
  | inversionFailed : PanicKind
deriving DecidableEq

/-- The loop of `KalmanFilter::smooth` (`src/kalman/src/lib.rs` lines
60–64), re-indexed: iteration `k ∈ 1..t` of the source reads
`filtered[t-k-1]` and `predicted[t-k]`; with `j := t-k-1` the counter `j+1`
runs down from `t-1`, each step reading `filtered[j]` and `predicted[j+1]`
and threading the freshly smoothed state (`init = smoothed[k]`) into the
tail.  The returned list holds the smoothing results in the source's push
order (descending index `j`). -/
def smoothAux {n m : ℕ} (kalman_filter : KalmanFilter n m)
    (filtered predicted : List (KalmanState n)) :
    ℕ → KalmanState n → Except PanicKind (List (KalmanState n))
  | 0, _ => .ok []
  | j + 1, init =>
    match filtered[j]? with
    | none => .error .indexOutOfBounds
    | some fj =>
      match predicted[j + 1]? with
      | none => .error .indexOutOfBounds
      | some pj =>
        match smoothing_step kalman_filter init fj pj with
        | none => .error .inversionFailed
        | some s =>
          (smoothAux kalman_filter filtered predicted j s).map
            (fun l => s :: l)

/-- `src/kalman/src/lib.rs`, `KalmanFilter::smooth`: with `t =
filtered.len()` it first reads `filtered[t-1]` (for `t = 0` the index
`t-1` underflows and the access panics — `indexOutOfBounds`), pushes it,
runs the backward loop, and reverses the accumulated list. -/
def smoothRun {n m : ℕ} (kalman_filter : KalmanFilter n m)
    (filtered predicted : List (KalmanState n)) :
    Except PanicKind (List (KalmanState n)) :=
  match filtered[filtered.length - 1]? with
  | none => .error .indexOutOfBounds
  | some last =>
    (smoothAux kalman_filter filtered predicted (filtered.length - 1) last).map
      (fun l => (last :: l).reverse)

/-! ### One-dimensional evaluation bridges

For concrete runs all matrices are `1 × 1`; these lemmas turn the matrix
computations into plain rational arithmetic. -/

/-- The identity `1 × 1` matrix as a literal. -/
theorem one_fin_one_q : (1 : Matrix (Fin 1) (Fin 1) ℚ) = !![1] := by
  ext i j
  fin_cases i; fin_cases j
  simp [Matrix.one_apply]

/-- `rInverse` on a `1 × 1` matrix with nonzero entry. -/
theorem rInverse_fin_one (a : ℚ) (ha : a ≠ 0) :
    rInverse !![a] = some !![a⁻¹] := by
  rw [rInverse, if_neg (by simpa [Matrix.det_fin_one] using ha)]
  congr 1
  ext i j
  fin_cases i; fin_cases j
  simp [Matrix.det_fin_one, Matrix.adjugate_fin_one, one_fin_one_q,
    Matrix.smul_apply, Matrix.cons_val_fin_one, Matrix.cons_val_zero,
    Matrix.cons_val', Matrix.empty_val', Matrix.head_cons, Matrix.head_fin_const,
    Matrix.of_apply]

/-- The innovation covariance of a one-dimensional filter. -/
theorem innovation_cov_fin_one (qv rv hv fv x0v p0v xv pv : ℚ) :
    innovation_cov
        { q := !![qv], r := !![rv], h := !![hv], f := !![fv],
          x0 := ![x0v], p0 := !![p0v] }
        { x := ![xv], p := !![pv] } = !![hv * pv * hv + rv] := by
  rw [innovation_cov]
  ext i j
  fin_cases i; fin_cases j
  simp only [Matrix.mul_apply, Fin.sum_univ_one, Matrix.transpose_apply,
    Matrix.add_apply, Matrix.cons_val_fin_one, Matrix.cons_val_zero,
    Matrix.cons_val', Matrix.empty_val', Matrix.head_cons, Matrix.head_fin_const,
    Matrix.of_apply, Matrix.vecHead, Matrix.vecTail]

/-- `predict_step` of a one-dimensional filter, as scalar arithmetic. -/
theorem predict_step_fin_one (qv rv hv fv x0v p0v xv pv : ℚ) :
    predict_step
        { q := !![qv], r := !![rv], h := !![hv], f := !![fv],
          x0 := ![x0v], p0 := !![p0v] }
        { x := ![xv], p := !![pv] } =
      { x := ![fv * xv], p := !![fv * pv * fv + qv] } := by
  rw [predict_step]
  simp only [KalmanState.mk.injEq]
  constructor
  · funext i
    fin_cases i
    simp only [Matrix.mulVec, Matrix.dotProduct, Fin.sum_univ_one,
      Matrix.cons_val_fin_one, Matrix.cons_val_zero, Matrix.cons_val',
      Matrix.empty_val', Matrix.head_cons, Matrix.head_fin_const,
      Matrix.of_apply, Matrix.vecHead, Matrix.vecTail]
  · ext i j
    fin_cases i; fin_cases j
    simp only [Matrix.mul_apply, Fin.sum_univ_one, Matrix.transpose_apply,
      Matrix.add_apply, Matrix.cons_val_fin_one, Matrix.cons_val_zero,
      Matrix.cons_val', Matrix.empty_val', Matrix.head_cons, Matrix.head_fin_const,
      Matrix.of_apply, Matrix.vecHead, Matrix.vecTail]

/-- `kalman_gain` of a one-dimensional filter, as scalar arithmetic. -/
theorem kalman_gain_fin_one (qv rv hv fv x0v p0v xv pv : ℚ)
    (hS : hv * pv * hv + rv ≠ 0) :
    kalman_gain
        { q := !![qv], r := !![rv], h := !![hv], f := !![fv],
          x0 := ![x0v], p0 := !![p0v] }
        { x := ![xv], p := !![pv] } =
      some !![pv * hv * (hv * pv * hv + rv)⁻¹] := by
  rw [kalman_gain, innovation_cov_fin_one, rInverse_fin_one _ hS,
    Option.map_some']
  congr 1
  ext i j
  fin_cases i; fin_cases j
  simp only [Matrix.mul_apply, Fin.sum_univ_one, Matrix.transpose_apply,
    Matrix.cons_val_fin_one, Matrix.cons_val_zero, Matrix.cons_val',
    Matrix.empty_val', Matrix.head_cons, Matrix.head_fin_const,
    Matrix.of_apply, Matrix.vecHead, Matrix.vecTail]

/-- `update_step` of a one-dimensional filter, as scalar arithmetic. -/
theorem update_step_fin_one (qv rv hv fv x0v p0v xv pv zv : ℚ)
    (hS : hv * pv * hv + rv ≠ 0) :
    update_step
        { q := !![qv], r := !![rv], h := !![hv], f := !![fv],
          x0 := ![x0v], p0 := !![p0v] }
        { x := ![xv], p := !![pv] } ![zv] =
      some { x := ![xv + pv * hv * (hv * pv * hv + rv)⁻¹ * (zv - hv * xv)]
             p := !![(1 - pv * hv * (hv * pv * hv + rv)⁻¹ * hv) * pv] } := by
  rw [update_step, innovation_cov_fin_one, rInverse_fin_one _ hS]
  simp only [Option.some.injEq, KalmanState.mk.injEq]
  constructor
  · funext i
    fin_cases i
    simp only [Matrix.mulVec, Matrix.dotProduct, Fin.sum_univ_one,
      Matrix.mul_apply, Matrix.transpose_apply, Pi.add_apply, Pi.sub_apply,
      Matrix.cons_val_fin_one, Matrix.cons_val_zero, Matrix.cons_val',
      Matrix.empty_val', Matrix.head_cons, Matrix.head_fin_const,
      Matrix.of_apply, Matrix.vecHead, Matrix.vecTail]
  · ext i j
    fin_cases i; fin_cases j
    simp only [Matrix.mul_apply, Fin.sum_univ_one, Matrix.transpose_apply,
      Matrix.sub_apply, one_fin_one_q, Matrix.cons_val_fin_one,
      Matrix.cons_val_zero, Matrix.cons_val', Matrix.empty_val',
      Matrix.head_cons, Matrix.head_fin_const, Matrix.of_apply,
      Matrix.vecHead, Matrix.vecTail]

/-- `smoothing_step` of a one-dimensional filter, as scalar arithmetic. -/
theorem smoothing_step_fin_one (qv rv hv fv x0v p0v ix ip fx fp px pp : ℚ)
    (hp : pp ≠ 0) :
    smoothing_step
        { q := !![qv], r := !![rv], h := !![hv], f := !![fv],
          x0 := ![x0v], p0 := !![p0v] }
        { x := ![ix], p := !![ip] } { x := ![fx], p := !![fp] }
        { x := ![px], p := !![pp] } =
      some { x := ![fx + fp * fv * pp⁻¹ * (ix - px)]
             p := !![fp + fp * fv * pp⁻¹ * (ip - pp) * (fp * fv * pp⁻¹)] } := by
  rw [smoothing_step, rInverse_fin_one pp hp]
  simp only [Option.some.injEq, KalmanState.mk.injEq]
  constructor
  · funext i
    fin_cases i
    simp only [Matrix.mulVec, Matrix.dotProduct, Fin.sum_univ_one,
      Matrix.mul_apply, Matrix.transpose_apply, Pi.add_apply, Pi.sub_apply,
      Matrix.cons_val_fin_one, Matrix.cons_val_zero, Matrix.cons_val',
      Matrix.empty_val', Matrix.head_cons, Matrix.head_fin_const,
      Matrix.of_apply, Matrix.vecHead, Matrix.vecTail]
  · ext i j
    fin_cases i; fin_cases j
    simp only [Matrix.mul_apply, Fin.sum_univ_one, Matrix.transpose_apply,
      Matrix.sub_apply, Matrix.add_apply, Matrix.cons_val_fin_one,
      Matrix.cons_val_zero, Matrix.cons_val', Matrix.empty_val',
      Matrix.head_cons, Matrix.head_fin_const, Matrix.of_apply,
      Matrix.vecHead, Matrix.vecTail]

/-- Nonsingular inverse of a `1 × 1` rational matrix. -/
theorem inv_fin_one_q (a : ℚ) (ha : a ≠ 0) : (!![a])⁻¹ = !![a⁻¹] := by
  have h1 := rInverse_eq_inv !![a] (by simpa [Matrix.det_fin_one] using ha)
  have h2 := rInverse_fin_one a ha
  rw [h1] at h2
  exact Option.some_injective _ h2

/-- The one-dimensional filter of the spec scenario:
`F=[1], Q=[0], H=[1], R=[1]`, initial state `0`, initial covariance `1`. -/
def kf1d : KalmanFilter 1 1 :=
  { q := !![0], r := !![1], h := !![1], f := !![1], x0 := ![0], p0 := !![1] }

/-- The initial estimate of `kf1d` as a `KalmanState`. -/
def st1d : KalmanState 1 := { x := ![0], p := !![1] }

/-- C8: for every prior estimate, `predict_step` returns state `F·x` and
covariance `F·P·Fᵀ + Q`; it is total (it returns a plain `KalmanState`,
with no error or panic case) and does not read any observation. -/
theorem C8_predict_step_formula {n m : ℕ} (kalman_filter : KalmanFilter n m)
    (prior : KalmanState n) :
    predict_step kalman_filter prior =
      { x := kalman_filter.f.mulVec prior.x
        p := kalman_filter.f * prior.p * kalman_filter.f.transpose +
          kalman_filter.q } := rfl

/-- C1: for every predicted estimate `pred` and observation `z`, whenever
the innovation covariance `S = H·P·Hᵀ + R` is invertible (nonzero
determinant), `update_step` returns state `pred.x + K·(z − H·pred.x)` and
covariance `(I − K·H)·pred.p`, where `K = pred.p·Hᵀ·S⁻¹`. -/
theorem C1_update_step_formula {n m : ℕ} (kalman_filter : KalmanFilter n m)
    (pred : KalmanState n) (z : Fin m → ℚ)
    (hS : (kalman_filter.h * pred.p * kalman_filter.h.transpose +
      kalman_filter.r).det ≠ 0) :
    update_step kalman_filter pred z =
      some { x := pred.x +
              (pred.p * kalman_filter.h.transpose *
                (kalman_filter.h * pred.p * kalman_filter.h.transpose +
                  kalman_filter.r)⁻¹).mulVec
                (z - kalman_filter.h.mulVec pred.x)
             p := (1 - pred.p * kalman_filter.h.transpose *
                (kalman_filter.h * pred.p * kalman_filter.h.transpose +
                  kalman_filter.r)⁻¹ * kalman_filter.h) * pred.p } := by
  have hinv : rInverse (innovation_cov kalman_filter pred) =
      some (innovation_cov kalman_filter pred)⁻¹ :=
    rInverse_eq_inv _ hS
  rw [update_step, hinv]
  rfl

/-- Witness for C1: the one-dimensional filter `kf1d` at the prior
estimate with observation `1`; the innovation covariance is `[2]`, the
gain `1/2`, the filtered state `1/2` and covariance `1/2`. -/
theorem C1_update_step_formula_witness :
    (kf1d.h * st1d.p * kf1d.h.transpose + kf1d.r).det ≠ 0 ∧
    update_step kf1d st1d ![1] = some { x := ![1/2], p := !![1/2] } := by
  have hmat : kf1d.h * st1d.p * kf1d.h.transpose + kf1d.r = !![2] := by
    have hic := innovation_cov_fin_one 0 1 1 1 0 1 0 1
    rw [innovation_cov] at hic
    rw [kf1d, st1d]
    rw [hic]
    norm_num
  have hdet : (kf1d.h * st1d.p * kf1d.h.transpose + kf1d.r).det ≠ 0 := by
    rw [hmat]
    simp [Matrix.det_fin_one]
  refine ⟨hdet, (C1_update_step_formula kf1d st1d ![1] hdet).trans ?_⟩
  rw [hmat, inv_fin_one_q 2 (by norm_num)]
  simp only [Option.some.injEq, KalmanState.mk.injEq, kf1d, st1d]
  constructor
  · funext i
    fin_cases i
    simp only [Matrix.mulVec, Matrix.dotProduct, Fin.sum_univ_one,
      Matrix.mul_apply, Matrix.transpose_apply, Pi.add_apply, Pi.sub_apply,
      Matrix.cons_val_fin_one, Matrix.cons_val_zero, Matrix.cons_val',
      Matrix.empty_val', Matrix.head_cons, Matrix.head_fin_const,
      Matrix.of_apply, Matrix.vecHead, Matrix.vecTail]
    norm_num
  · ext i j
    fin_cases i; fin_cases j
    simp only [Matrix.mul_apply, Fin.sum_univ_one, Matrix.transpose_apply,
      Matrix.sub_apply, one_fin_one_q, Matrix.cons_val_fin_one,
      Matrix.cons_val_zero, Matrix.cons_val', Matrix.empty_val',
      Matrix.head_cons, Matrix.head_fin_const, Matrix.of_apply,
      Matrix.vecHead, Matrix.vecTail]
    norm_num

/-- Structure of a successful `filterAux` run: one filtered entry per
observation, one extra predicted entry, the seed at `predicted[0]`, and the
update/predict recurrences at every index. -/
theorem filterAux_spec {n m : ℕ} (kalman_filter : KalmanFilter n m)
    (data : List (Fin m → ℚ)) :
    ∀ (pred : KalmanState n) (fs ps : List (KalmanState n)),
      filterAux kalman_filter pred data = some (fs, ps) →
      fs.length = data.length ∧ ps.length = data.length + 1 ∧
      ps[0]? = some pred ∧
      ∀ k < data.length, ∃ pk zk fk,
        ps[k]? = some pk ∧ data[k]? = some zk ∧ fs[k]? = some fk ∧
        update_step kalman_filter pk zk = some fk ∧
        ps[k + 1]? = some (predict_step kalman_filter fk) := by
  induction data with
  | nil =>
    intro pred fs ps hrun
    simp only [filterAux, Option.some.injEq, Prod.mk.injEq] at hrun
    obtain ⟨hfs, hps⟩ := hrun
    subst hfs; subst hps
    refine ⟨rfl, rfl, rfl, ?_⟩
    intro k hk
    exact absurd hk (by simp)
  | cons z rest ih =>
    intro pred fs ps hrun
    simp only [filterAux] at hrun
    rcases hu : update_step kalman_filter pred z with _ | filt
    · rw [hu] at hrun
      simp at hrun
    · rw [hu] at hrun
      simp only [] at hrun
      rcases hrec : filterAux kalman_filter
          (predict_step kalman_filter filt) rest with _ | ⟨fs2, ps2⟩
      · rw [hrec] at hrun
        simp at hrun
      · rw [hrec] at hrun
        simp only [Option.some.injEq, Prod.mk.injEq] at hrun
        obtain ⟨hfs, hps⟩ := hrun
        subst hfs; subst hps
        obtain ⟨ihl1, ihl2, ih0, ihrec⟩ := ih _ fs2 ps2 hrec
        refine ⟨by simp [ihl1], by simp [ihl2], by simp, ?_⟩
        intro k hk
        cases k with
        | zero =>
          refine ⟨pred, z, filt, by simp, by simp, by simp, hu, ?_⟩
          simpa using ih0
        | succ j =>
          have hj : j < rest.length := by simpa using hk
          obtain ⟨pk, zk, fk, h1, h2, h3, h4, h5⟩ := ihrec j hj
          exact ⟨pk, zk, fk, by simpa using h1, by simpa using h2,
            by simpa using h3, h4, by simpa using h5⟩

/-- C2: whenever `filter` returns, the filtered sequence has length exactly
`T`, the predicted sequence length exactly `T+1`, `predicted[0]` is the
prior `{x0, p0}`, and for each `k < T`,
`filtered[k] = update_step(predicted[k], observations[k])` and
`predicted[k+1] = predict_step(filtered[k])`. -/
theorem C2_filter_structure {n m : ℕ} (kalman_filter : KalmanFilter n m)
    (data : List (Fin m → ℚ)) (fs ps : List (KalmanState n))
    (hrun : filterRun kalman_filter data = some (fs, ps)) :
    fs.length = data.length ∧ ps.length = data.length + 1 ∧
    ps[0]? = some { x := kalman_filter.x0, p := kalman_filter.p0 } ∧
    ∀ k < data.length, ∃ pk zk fk,
      ps[k]? = some pk ∧ data[k]? = some zk ∧ fs[k]? = some fk ∧
      update_step kalman_filter pk zk = some fk ∧
      ps[k + 1]? = some (predict_step kalman_filter fk) :=
  filterAux_spec kalman_filter data _ fs ps hrun

/-- First measurement update of the `kf1d` scenario at observation `1`. -/
theorem kf1d_update1 : update_step kf1d st1d ![1] =
    some { x := ![1/2], p := !![1/2] } := by
  have e := update_step_fin_one 0 1 1 1 0 1 0 1 1 (by norm_num)
  simp only [kf1d, st1d]
  rw [e]
  norm_num

/-- `predict_step` of `kf1d` is the identity on estimates (`F=1`, `Q=0`). -/
theorem kf1d_predict (xv pv : ℚ) :
    predict_step kf1d { x := ![xv], p := !![pv] } =
      { x := ![xv], p := !![pv] } := by
  have e := predict_step_fin_one 0 1 1 1 0 1 xv pv
  simp only [kf1d]
  rw [e]
  norm_num

/-- Second measurement update of the `kf1d` scenario. -/
theorem kf1d_update2 : update_step kf1d { x := ![1/2], p := !![1/2] } ![1] =
    some { x := ![2/3], p := !![1/3] } := by
  have e := update_step_fin_one 0 1 1 1 0 1 (1/2) (1/2) 1 (by norm_num)
  simp only [kf1d]
  rw [e]
  norm_num

/-- Third measurement update of the `kf1d` scenario. -/
theorem kf1d_update3 : update_step kf1d { x := ![2/3], p := !![1/3] } ![1] =
    some { x := ![3/4], p := !![1/4] } := by
  have e := update_step_fin_one 0 1 1 1 0 1 (2/3) (1/3) 1 (by norm_num)
  simp only [kf1d]
  rw [e]
  norm_num

/-- The one-observation run of `kf1d`. -/
theorem kf1d_run_one :
    filterRun kf1d [![1]] =
      some ([{ x := ![1/2], p := !![1/2] }],
            [st1d, { x := ![1/2], p := !![1/2] }]) := by
  have hseed : ({ x := kf1d.x0, p := kf1d.p0 } : KalmanState 1) = st1d := rfl
  rw [filterRun, hseed]
  simp [filterAux, kf1d_update1, kf1d_predict]

/-- The three-observation run of `kf1d`. -/
theorem kf1d_run_three :
    filterRun kf1d [![1], ![1], ![1]] =
      some ([{ x := ![1/2], p := !![1/2] },
             { x := ![2/3], p := !![1/3] },
             { x := ![3/4], p := !![1/4] }],
            [st1d,
             { x := ![1/2], p := !![1/2] },
             { x := ![2/3], p := !![1/3] },
             { x := ![3/4], p := !![1/4] }]) := by
  have hseed : ({ x := kf1d.x0, p := kf1d.p0 } : KalmanState 1) = st1d := rfl
  rw [filterRun, hseed]
  simp only [filterAux]
  rw [kf1d_update1]
  simp only []
  rw [kf1d_predict, kf1d_update2]
  simp only []
  rw [kf1d_predict, kf1d_update3]
  simp only []
  rw [kf1d_predict]

/-- Witness for C2: the one-observation run of `kf1d` satisfies the
hypothesis of `C2_filter_structure`, and the returned sequences have
lengths `1` and `2` with `predicted[0]` the prior. -/
theorem C2_filter_structure_witness :
    filterRun kf1d [![1]] =
      some ([{ x := ![1/2], p := !![1/2] }],
            [st1d, { x := ![1/2], p := !![1/2] }]) ∧
    ([({ x := ![1/2], p := !![1/2] } : KalmanState 1)]).length = 1 ∧
    ([st1d, { x := ![1/2], p := !![1/2] }]).length = 2 := by
  have hs := C2_filter_structure kf1d [![1]] _ _ kf1d_run_one
  exact ⟨kf1d_run_one, by simpa using hs.1, by simpa using hs.2.1⟩

/-- Structure of a successful `smoothAux` run: writing the chain
`out.reverse ++ [init]` (smoothed estimates in ascending index order,
ending with the seed), consecutive chain entries are linked by
`smoothing_step` against `filtered[k]` and `predicted[k+1]`. -/
theorem smoothAux_chain {n m : ℕ} (kalman_filter : KalmanFilter n m)
    (filtered predicted : List (KalmanState n)) :
    ∀ (c : ℕ) (init : KalmanState n) (out : List (KalmanState n)),
      smoothAux kalman_filter filtered predicted c init = .ok out →
      out.length = c ∧
      ∀ k < c, ∃ fk pk sk sk1,
        filtered[k]? = some fk ∧ predicted[k + 1]? = some pk ∧
        (out.reverse ++ [init])[k]? = some sk ∧
        (out.reverse ++ [init])[k + 1]? = some sk1 ∧
        smoothing_step kalman_filter sk1 fk pk = some sk := by
  intro c
  induction c with
  | zero =>
    intro init out h
    simp only [smoothAux] at h
    obtain rfl : ([] : List (KalmanState n)) = out := by simpa using h
    refine ⟨rfl, ?_⟩
    intro k hk
    exact absurd hk (by simp)
  | succ j ihj =>
    intro init out h
    simp only [smoothAux] at h
    rcases hf : filtered[j]? with _ | fj
    · rw [hf] at h; simp at h
    · rw [hf] at h
      simp only [] at h
      rcases hq : predicted[j + 1]? with _ | pj
      · rw [hq] at h; simp at h
      · rw [hq] at h
        simp only [] at h
        rcases hs : smoothing_step kalman_filter init fj pj with _ | sj
        · rw [hs] at h; simp at h
        · rw [hs] at h
          simp only [] at h
          rcases hrec : smoothAux kalman_filter filtered predicted j sj
            with e | out2
          · rw [hrec] at h; simp [Except.map] at h
          · rw [hrec] at h
            simp only [Except.map, Except.ok.injEq] at h
            subst h
            obtain ⟨ihlen, ihchain⟩ := ihj sj out2 hrec
            have hrevlen : out2.reverse.length = j := by simp [ihlen]
            have hclen : (out2.reverse ++ [sj]).length = j + 1 := by
              simp [hrevlen]
            refine ⟨by simp [ihlen], ?_⟩
            intro k hk
            have hsplit : (sj :: out2).reverse ++ [init] =
                (out2.reverse ++ [sj]) ++ [init] := by
              simp
            rcases Nat.lt_or_ge k j with hkj | hkj
            · obtain ⟨fk, pk, sk, sk1, e1, e2, e3, e4, e5⟩ := ihchain k hkj
              refine ⟨fk, pk, sk, sk1, e1, e2, ?_, ?_, e5⟩
              · rw [hsplit, List.getElem?_append_left (by omega)]
                exact e3
              · rw [hsplit, List.getElem?_append_left (by omega)]
                exact e4
            · have hkeq : k = j := by omega
              subst hkeq
              refine ⟨fj, pj, sj, init, hf, hq, ?_, ?_, hs⟩
              · rw [hsplit, List.getElem?_append_left (by omega)]
                rw [show k = out2.reverse.length from hrevlen.symm]
                exact List.getElem?_concat_length _ _
              · rw [hsplit]
                rw [show k + 1 = (out2.reverse ++ [sj]).length from by omega]
                exact List.getElem?_concat_length _ _

/-- C3: whenever `smooth` returns, the smoothed sequence has the length of
the filtered one, and for every `k` with `k+1 < T` the backward RTS
equations hold:
`smoothed[k].x = filtered[k].x + J·(smoothed[k+1].x − predicted[k+1].x)` and
`smoothed[k].p = filtered[k].p + J·(smoothed[k+1].p − predicted[k+1].p)·Jᵀ`
with `J = filtered[k].p·Fᵀ·predicted[k+1].p⁻¹` and `predicted[k+1].p`
invertible; `smoothed[k]` is computed from `smoothed[k+1]` (descending
index order). -/
theorem C3_smooth_structure {n m : ℕ} (kalman_filter : KalmanFilter n m)
    (filtered predicted sm : List (KalmanState n))
    (hrun : smoothRun kalman_filter filtered predicted = .ok sm) :
    sm.length = filtered.length ∧
    ∀ k, k + 1 < filtered.length → ∃ fk pk sk sk1,
      filtered[k]? = some fk ∧ predicted[k + 1]? = some pk ∧
      sm[k]? = some sk ∧ sm[k + 1]? = some sk1 ∧
      pk.p.det ≠ 0 ∧
      sk.x = fk.x +
        (fk.p * kalman_filter.f.transpose * pk.p⁻¹).mulVec (sk1.x - pk.x) ∧
      sk.p = fk.p +
        (fk.p * kalman_filter.f.transpose * pk.p⁻¹) * (sk1.p - pk.p) *
          (fk.p * kalman_filter.f.transpose * pk.p⁻¹).transpose := by
  rw [smoothRun] at hrun
  rcases hlast : filtered[filtered.length - 1]? with _ | last
  · rw [hlast] at hrun; simp at hrun
  · rw [hlast] at hrun
    simp only [] at hrun
    rcases hrec : smoothAux kalman_filter filtered predicted
        (filtered.length - 1) last with e | out
    · rw [hrec] at hrun; simp [Except.map] at hrun
    · rw [hrec] at hrun
      simp only [Except.map, Except.ok.injEq] at hrun
      have ht : 1 ≤ filtered.length := by
        rcases filtered with _ | ⟨a, l⟩
        · simp at hlast
        · simp
      obtain ⟨hlen, hchain⟩ :=
        smoothAux_chain kalman_filter filtered predicted _ last out hrec
      have hsm : sm = out.reverse ++ [last] := by
        rw [← hrun, List.reverse_cons]
      constructor
      · rw [hsm]
        simp [hlen]
        omega
      · intro k hk
        have hkc : k < filtered.length - 1 := by omega
        obtain ⟨fk, pk, sk, sk1, e1, e2, e3, e4, e5⟩ := hchain k hkc
        rw [smoothing_step] at e5
        rcases hri : rInverse pk.p with _ | pInv
        · rw [hri] at e5; simp at e5
        · rw [hri] at e5
          simp only [Option.some.injEq] at e5
          obtain ⟨hdet, hpinv⟩ := rInverse_some hri
          subst hpinv
          refine ⟨fk, pk, sk, sk1, e1, e2, by rw [hsm]; exact e3,
            by rw [hsm]; exact e4, hdet, ?_, ?_⟩
          · rw [← e5]
          · rw [← e5]

/-- First backward smoothing step of the `kf1d` three-run. -/
theorem kf1d_smooth_step1 :
    smoothing_step kf1d { x := ![3/4], p := !![1/4] }
      { x := ![2/3], p := !![1/3] } { x := ![2/3], p := !![1/3] } =
      some { x := ![3/4], p := !![1/4] } := by
  have e := smoothing_step_fin_one 0 1 1 1 0 1 (3/4) (1/4) (2/3) (1/3)
    (2/3) (1/3) (by norm_num)
  simp only [kf1d]
  rw [e]
  norm_num

/-- Second backward smoothing step of the `kf1d` three-run. -/
theorem kf1d_smooth_step2 :
    smoothing_step kf1d { x := ![3/4], p := !![1/4] }
      { x := ![1/2], p := !![1/2] } { x := ![1/2], p := !![1/2] } =
      some { x := ![3/4], p := !![1/4] } := by
  have e := smoothing_step_fin_one 0 1 1 1 0 1 (3/4) (1/4) (1/2) (1/2)
    (1/2) (1/2) (by norm_num)
  simp only [kf1d]
  rw [e]
  norm_num

/-- Smoothing the three-observation `kf1d` run: every smoothed estimate is
`(3/4, 1/4)`. -/
theorem kf1d_smooth_three :
    smoothRun kf1d
      [{ x := ![1/2], p := !![1/2] },
       { x := ![2/3], p := !![1/3] },
       { x := ![3/4], p := !![1/4] }]
      [st1d,
       { x := ![1/2], p := !![1/2] },
       { x := ![2/3], p := !![1/3] },
       { x := ![3/4], p := !![1/4] }] =
      .ok [{ x := ![3/4], p := !![1/4] },
           { x := ![3/4], p := !![1/4] },
           { x := ![3/4], p := !![1/4] }] := by
  rw [smoothRun]
  simp only [List.length_cons, List.length_nil]
  rw [show (0 + 1 + 1 + 1 - 1 : ℕ) = 2 from rfl]
  rw [show ([{ x := ![1/2], p := !![1/2] },
       { x := ![2/3], p := !![1/3] },
       { x := ![3/4], p := !![1/4] }] :
      List (KalmanState 1))[2]? = some { x := ![3/4], p := !![1/4] } from rfl]
  simp only [smoothAux]
  rw [show ([{ x := ![1/2], p := !![1/2] },
       { x := ![2/3], p := !![1/3] },
       { x := ![3/4], p := !![1/4] }] :
      List (KalmanState 1))[1]? = some { x := ![2/3], p := !![1/3] } from rfl]
  rw [show ([st1d,
       { x := ![1/2], p := !![1/2] },
       { x := ![2/3], p := !![1/3] },
       { x := ![3/4], p := !![1/4] }] :
      List (KalmanState 1))[2]? = some { x := ![2/3], p := !![1/3] } from rfl]
  simp only []
  rw [kf1d_smooth_step1]
  simp only []
  rw [show ([{ x := ![1/2], p := !![1/2] },
       { x := ![2/3], p := !![1/3] },
       { x := ![3/4], p := !![1/4] }] :
      List (KalmanState 1))[0]? = some { x := ![1/2], p := !![1/2] } from rfl]
  rw [show ([st1d,
       { x := ![1/2], p := !![1/2] },
       { x := ![2/3], p := !![1/3] },
       { x := ![3/4], p := !![1/4] }] :
      List (KalmanState 1))[0 + 1]? = some { x := ![1/2], p := !![1/2] } from rfl]
  simp only []
  rw [kf1d_smooth_step2]
  simp [Except.map]

/-- Witness for C3: smoothing the completed three-observation `kf1d` run
succeeds and returns three smoothed estimates. -/
theorem C3_smooth_structure_witness :
    smoothRun kf1d
      [{ x := ![1/2], p := !![1/2] },
       { x := ![2/3], p := !![1/3] },
       { x := ![3/4], p := !![1/4] }]
      [st1d,
       { x := ![1/2], p := !![1/2] },
       { x := ![2/3], p := !![1/3] },
       { x := ![3/4], p := !![1/4] }] =
      .ok [{ x := ![3/4], p := !![1/4] },
           { x := ![3/4], p := !![1/4] },
           { x := ![3/4], p := !![1/4] }] ∧
    ([({ x := ![3/4], p := !![1/4] } : KalmanState 1),
      { x := ![3/4], p := !![1/4] },
      { x := ![3/4], p := !![1/4] }]).length = 3 := by
  refine ⟨kf1d_smooth_three, ?_⟩
  have hs := (C3_smooth_structure kf1d _ _ _ kf1d_smooth_three).1
  simpa using hs

/-- C5: whenever `smooth` returns, the last smoothed estimate equals the
last filtered estimate exactly; and running `filter` then `smooth` on a
one-observation sequence returns a smoothed sequence equal to the filtered
sequence. -/
theorem C5_smooth_boundary (n m : ℕ) :
    (∀ (kalman_filter : KalmanFilter n m)
       (filtered predicted sm : List (KalmanState n)),
      smoothRun kalman_filter filtered predicted = .ok sm →
      sm[filtered.length - 1]? = filtered[filtered.length - 1]?) ∧
    (∀ (kalman_filter : KalmanFilter n m) (z : Fin m → ℚ)
       (fs ps : List (KalmanState n)),
      filterRun kalman_filter [z] = some (fs, ps) →
      smoothRun kalman_filter fs ps = .ok fs) := by
  constructor
  · intro kalman_filter filtered predicted sm hrun
    rw [smoothRun] at hrun
    rcases hlast : filtered[filtered.length - 1]? with _ | last
    · rw [hlast] at hrun; simp at hrun
    · rw [hlast] at hrun
      simp only [] at hrun
      rcases hrec : smoothAux kalman_filter filtered predicted
          (filtered.length - 1) last with e | out
      · rw [hrec] at hrun; simp [Except.map] at hrun
      · rw [hrec] at hrun
        simp only [Except.map, Except.ok.injEq] at hrun
        obtain ⟨hlen, -⟩ :=
          smoothAux_chain kalman_filter filtered predicted _ last out hrec
        have hsm : sm = out.reverse ++ [last] := by
          rw [← hrun, List.reverse_cons]
        have hidx : filtered.length - 1 = out.reverse.length := by
          simp [hlen]
        rw [hsm, hidx, List.getElem?_concat_length]
  · intro kalman_filter z fs ps hrun
    rw [filterRun] at hrun
    simp only [filterAux] at hrun
    rcases hu : update_step kalman_filter
        { x := kalman_filter.x0, p := kalman_filter.p0 } z with _ | filt
    · rw [hu] at hrun; simp at hrun
    · rw [hu] at hrun
      simp only [Option.some.injEq, Prod.mk.injEq] at hrun
      obtain ⟨hfs, hps⟩ := hrun
      subst hfs; subst hps
      rw [smoothRun]
      simp [smoothAux, Except.map]

/-- Witness for C5: filtering one observation with `kf1d` and smoothing the
result returns the filtered sequence unchanged. -/
theorem C5_smooth_boundary_witness :
    smoothRun kf1d [{ x := ![1/2], p := !![1/2] }]
        [st1d, { x := ![1/2], p := !![1/2] }] =
      .ok [{ x := ![1/2], p := !![1/2] }] :=
  (C5_smooth_boundary 1 1).2 kf1d ![1] _ _ kf1d_run_one

/-- A `smoothAux` run whose counter is within both sequences never reports
an index panic: every failure is the inversion `expect`. -/
theorem smoothAux_no_index_error {n m : ℕ} (kalman_filter : KalmanFilter n m)
    (filtered predicted : List (KalmanState n)) :
    ∀ (c : ℕ) (init : KalmanState n),
      c < filtered.length → c < predicted.length →
      smoothAux kalman_filter filtered predicted c init ≠
        .error .indexOutOfBounds := by
  intro c
  induction c with
  | zero =>
    intro init h1 h2
    simp [smoothAux]
  | succ j ihj =>
    intro init h1 h2
    simp only [smoothAux]
    rw [List.getElem?_eq_getElem (by omega : j < filtered.length)]
    simp only []
    rw [List.getElem?_eq_getElem (by omega : j + 1 < predicted.length)]
    simp only []
    rcases hs : smoothing_step kalman_filter init
        (filtered[j]) (predicted[j + 1]) with _ | sj
    · simp
    · simp only []
      rcases hrec : smoothAux kalman_filter filtered predicted j sj
        with e | out
      · have := ihj sj (by omega) (by omega)
        rw [hrec] at this
        intro hcon
        simp only [Except.map] at hcon
        exact this (by rw [hcon])
      · simp [Except.map]

/-- C9: `smooth` on an empty filtered sequence fails with the
(underflowing) out-of-bounds access `filtered[t-1]`, `t = 0`, rather than
returning an empty smoothed sequence; for any non-empty filtered sequence
whose predicted companion is at least as long, no index access panics. -/
theorem C9_smooth_empty_bounds (n m : ℕ) :
    (∀ (kalman_filter : KalmanFilter n m)
       (predicted : List (KalmanState n)),
      smoothRun kalman_filter [] predicted = .error .indexOutOfBounds) ∧
    (∀ (kalman_filter : KalmanFilter n m)
       (filtered predicted : List (KalmanState n)),
      filtered ≠ [] → filtered.length ≤ predicted.length →
      smoothRun kalman_filter filtered predicted ≠
        .error .indexOutOfBounds) := by
  constructor
  · intro kalman_filter predicted
    rfl
  · intro kalman_filter filtered predicted hne hlen
    have ht : 1 ≤ filtered.length := List.length_pos.mpr hne
    rw [smoothRun]
    rw [List.getElem?_eq_getElem (by omega : filtered.length - 1 <
      filtered.length)]
    simp only []
    rcases hrec : smoothAux kalman_filter filtered predicted
        (filtered.length - 1) (filtered[filtered.length - 1]) with e | out
    · have := smoothAux_no_index_error kalman_filter filtered predicted
        (filtered.length - 1) (filtered[filtered.length - 1])
        (by omega) (by omega)
      rw [hrec] at this
      intro hcon
      simp only [Except.map] at hcon
      exact this (by rw [hcon])
    · simp [Except.map]

/-- Witness for C9: with the one-dimensional filter, smoothing the empty
sequence index-panics, while a singleton filtered/predicted pair does not. -/
theorem C9_smooth_empty_bounds_witness :
    smoothRun kf1d [] [] = .error .indexOutOfBounds ∧
    smoothRun kf1d [st1d] [st1d] ≠ .error .indexOutOfBounds :=
  ⟨(C9_smooth_empty_bounds 1 1).1 kf1d [],
   (C9_smooth_empty_bounds 1 1).2 kf1d [st1d] [st1d] (by simp) (by simp)⟩

/-- The degenerate filter of C4: `R = [0]` and `H = [0]` simultaneously. -/
def kfC4 : KalmanFilter 1 1 :=
  { q := !![0], r := !![0], h := !![0], f := !![1], x0 := ![0], p0 := !![1] }

/-- In the degenerate scenario the innovation covariance is the zero
matrix. -/
theorem kfC4_innovation_cov : innovation_cov kfC4 st1d = !![0] := by
  have e := innovation_cov_fin_one 0 0 0 1 0 1 0 1
  simp only [kfC4, st1d]
  rw [e]
  norm_num

/-- Counterexample for C4 as stated: with `R=[0]`, `H=[0]` the source's
`update_step` returns nothing to the caller — the `expect` on the failed
inversion of `S` panics and aborts the process (modelled `none`); no typed
`SingularInnovationCovariance` error value exists in this code path (the
function's return type is a bare `KalmanState`), so nothing catchable is
returned. -/
theorem C4_counterexample : update_step kfC4 st1d ![0] = none := by
  rw [update_step, kfC4_innovation_cov, rInverse]
  norm_num [Matrix.det_fin_one]

/-- C4 amended: with `R=[0]` and `H=[0]` the innovation covariance `S` is
the singular `[0]`, so its inversion fails and `update_step` fails at that
point — it does not return a silently wrong result; but the failure is the
`expect` panic (process abort, modelled `none`), not a typed, catchable
`SingularInnovationCovariance` error returned to the caller. -/
theorem C4_degenerate_panics :
    (innovation_cov kfC4 st1d).det = 0 ∧
    rInverse (innovation_cov kfC4 st1d) = none ∧
    ∀ st : KalmanState 1, update_step kfC4 st1d ![0] ≠ some st := by
  have hdet : (innovation_cov kfC4 st1d).det = 0 := by
    rw [kfC4_innovation_cov]
    simp [Matrix.det_fin_one]
  refine ⟨hdet, ?_, ?_⟩
  · rw [rInverse, if_pos hdet]
  · intro st hcon
    rw [update_step, rInverse, if_pos hdet] at hcon
    simp at hcon

/-! ### The EKF demo of `src/src/main.rs` -/

/-- `src/kalman_no_std/src/state_cov.rs`: `StateAndCovariance` — a state
vector paired with a covariance matrix. -/
structure StateAndCovariance (n : ℕ) where
  state : Fin n → ℚ
  covariance : Matrix (Fin n) (Fin n) ℚ

/-- `src/src/main.rs`: `LinearizedObservationModel` — the observation
(Jacobian) matrix, its transpose, the measurement-noise covariance and the
nonlinear evaluation function, for state dimension 4 and observation
dimension 2. -/
structure LinearizedObservationModel where
  evaluation_func : (Fin 4 → ℚ) → (Fin 2 → ℚ)
  observation_matrix : Matrix (Fin 2) (Fin 4) ℚ
  observation_matrix_transpose : Matrix (Fin 4) (Fin 2) ℚ
  observation_noise_covariance : Matrix (Fin 2) (Fin 2) ℚ

/-- `src/src/main.rs`, `NonlinearObservationModel::linearize_at`: the
observation is `[x³, x·y]`; the Jacobian at `state` has rows
`[3x², 0, 0, 0]` and `[y, x, 0, 0]`; the noise covariance is `0.01·I₂`. -/
def linearize_at (state : Fin 4 → ℚ) : LinearizedObservationModel :=
  { evaluation_func := fun s => ![s 0 * s 0 * s 0, s 0 * s 1]
    observation_matrix :=
      !![3 * state 0 * state 0, 0, 0, 0; state 1, state 0, 0, 0]
    observation_matrix_transpose :=
      (!![3 * state 0 * state 0, 0, 0, 0; state 1, state 0, 0, 0]).transpose
    observation_noise_covariance := !![1/100, 0; 0, 1/100] }

/-- Modelled from the spec: the time update of the external motion model
(spec §4.2): `state' = F·state`, `covariance' = F·covariance·Fᵀ + Q`. -/
def predictSC (F Q : Matrix (Fin 4) (Fin 4) ℚ)
    (prev : StateAndCovariance 4) : StateAndCovariance 4 :=
  { state := F.mulVec prev.state
    covariance := F * prev.covariance * F.transpose + Q }

/-- Modelled from the spec: `KalmanFilterNoControl::step` of the
`kalman_no_std` crate, whose `lib.rs` is not among the sources (only
`state_cov.rs` is).  Per spec §4.2/§4.4 — and mirroring the in-repo
`filter_step` — a step is the time update followed by the measurement
update: gain `K = P·Hᵗ·S⁻¹` with `S = H·P·Hᵗ + R`, innovation
`observation − observe(predicted state)` using the nonlinear evaluation
function, new covariance `(I − K·H)·P`; a failed inversion of `S` is the
error case (`none`). -/
def kfnc_step (F Q : Matrix (Fin 4) (Fin 4) ℚ)
    (om : LinearizedObservationModel) (prev : StateAndCovariance 4)
    (obs : Fin 2 → ℚ) : Option (StateAndCovariance 4) :=
  let pred := predictSC F Q prev
  match rInverse (om.observation_matrix * pred.covariance *
      om.observation_matrix_transpose + om.observation_noise_covariance) with
  | none => none
  | some sInv =>
    let gainK := pred.covariance * om.observation_matrix_transpose * sInv
    some { state := pred.state +
            gainK.mulVec (obs - om.evaluation_func pred.state)
           covariance := (1 - gainK * om.observation_matrix) *
            pred.covariance }

/-- `src/src/main.rs`, the estimation loop (lines 144–152): each iteration
builds the observation model by `linearize_at(previous_estimate.state())`
— the previous estimate, not the current step's predicted state — and then
calls `kf.step`, threading the new estimate.  Each returned pair records
the linearization point used at that step together with the step's
estimate; a failed step (the `?` operator) aborts the whole run. -/
def ekfLoop (F Q : Matrix (Fin 4) (Fin 4) ℚ) :
    StateAndCovariance 4 → List (Fin 2 → ℚ) →
    Option (List ((Fin 4 → ℚ) × StateAndCovariance 4))
  | _, [] => some []
  | prev, z :: rest =>
    match kfnc_step F Q (linearize_at prev.state) prev z with
    | none => none
    | some est => (ekfLoop F Q est rest).map (fun l => (prev.state, est) :: l)

/-- Modelled from the spec: the transition matrix of
`models::motion_model::ConstantVelocity2DModel` (the `models` crate is not
among the sources) at the `dt = 0.01` used by `src/src/main.rs`: position
advances by `dt` times velocity.  The process noise `Q` is kept as a
parameter of the loop. -/
def fCV : Matrix (Fin 4) (Fin 4) ℚ :=
  !![1, 0, 1/100, 0; 0, 1, 0, 1/100; 0, 0, 1, 0; 0, 0, 0, 1]

/-- `src/src/main.rs`: the initial estimate — `true_initial_state
(0, 0, 10, −5)` with covariance `0.1·I₄`. -/
def priorEKF : StateAndCovariance 4 :=
  { state := ![0, 0, 10, -5]
    covariance :=
      !![1/10, 0, 0, 0; 0, 1/10, 0, 0; 0, 0, 1/10, 0; 0, 0, 0, 1/10] }

/-- At the demo prior the first two state coordinates vanish, so the
linearized observation matrix is zero. -/
theorem linearize_at_prior_matrix :
    (linearize_at priorEKF.state).observation_matrix = 0 := by
  ext i j
  fin_cases i <;> fin_cases j <;>
    simp [linearize_at, priorEKF, Matrix.zero_apply, Matrix.cons_val_zero,
      Matrix.cons_val_one, Matrix.head_cons, Matrix.vecHead, Matrix.vecTail]

/-- Hence its transpose is zero as well. -/
theorem linearize_at_prior_matrix_transpose :
    (linearize_at priorEKF.state).observation_matrix_transpose = 0 := by
  have h0 := linearize_at_prior_matrix
  simp only [linearize_at] at h0 ⊢
  rw [h0, Matrix.transpose_zero]

/-- Inverting the demo noise covariance `0.01·I₂`. -/
theorem rInverse_noise_cov :
    rInverse !![(1:ℚ)/100, 0; 0, 1/100] = some !![100, 0; 0, 100] := by
  have hdet : (!![(1:ℚ)/100, 0; 0, 1/100]).det = 1/10000 := by
    rw [Matrix.det_fin_two_of]
    norm_num
  rw [rInverse, if_neg (by rw [hdet]; norm_num)]
  rw [hdet, Matrix.adjugate_fin_two_of]
  congr 1
  ext i j
  fin_cases i <;> fin_cases j <;>
    norm_num [Matrix.smul_apply, Matrix.cons_val_zero, Matrix.cons_val_one,
      Matrix.head_cons, Matrix.vecHead, Matrix.vecTail, Matrix.cons_val',
      Matrix.empty_val', Matrix.of_apply]

set_option maxHeartbeats 1000000 in
/-- The first EKF step at the demo prior: the Jacobian vanishes there, so
the gain is zero and the step returns exactly the predicted estimate. -/
theorem ekf_step_at_prior :
    kfnc_step fCV 0 (linearize_at priorEKF.state) priorEKF ![0, 0] =
      some (predictSC fCV 0 priorEKF) := by
  simp only [kfnc_step]
  rw [linearize_at_prior_matrix, linearize_at_prior_matrix_transpose]
  rw [show (linearize_at priorEKF.state).observation_noise_covariance =
    !![(1:ℚ)/100, 0; 0, 1/100] from rfl]
  simp only [Matrix.zero_mul, Matrix.mul_zero, zero_add, rInverse_noise_cov,
    Matrix.zero_mulVec, add_zero, sub_zero, Matrix.one_mul]

/-- The one-observation EKF run records the prior as its (only)
linearization point. -/
theorem ekfLoop_one :
    ekfLoop fCV 0 priorEKF [![0, 0]] =
      some [(priorEKF.state, predictSC fCV 0 priorEKF)] := by
  simp only [ekfLoop]
  rw [ekf_step_at_prior]
  simp only [ekfLoop, Option.map_some']

/-- Counterexample for C7 as stated: in a one-step EKF run at the demo
prior (motion model instantiated at `fCV`, `Q = 0`), the loop records the
linearization point `priorEKF.state`, but the predicted (pre-update) state
of that very step is `F·priorEKF.state`, which differs — so the model is
not linearized at the current step's predicted state. -/
theorem C7_counterexample :
    (ekfLoop fCV 0 priorEKF [![0, 0]]).map (List.map Prod.fst) =
      some [priorEKF.state] ∧
    (predictSC fCV 0 priorEKF).state ≠ priorEKF.state := by
  constructor
  · rw [ekfLoop_one]
    simp
  · intro hcon
    have h0 := congrFun hcon 0
    simp only [predictSC, priorEKF, Matrix.mulVec, Matrix.dotProduct,
      Fin.sum_univ_four, fCV, Matrix.cons_val_zero, Matrix.cons_val_one,
      Matrix.cons_val_two, Matrix.cons_val_three, Matrix.head_cons,
      Matrix.vecHead, Matrix.vecTail, Matrix.cons_val', Matrix.empty_val',
      Matrix.of_apply, Function.comp] at h0
    norm_num at h0

/-- C7 amended: in the EKF estimation loop of `src/src/main.rs` each
step's observation model is linearized at the previous estimate's state —
the prior for the first step and the previous posterior (filtered) state
afterwards — not at the current step's predicted (pre-update) state. -/
theorem C7_linearization_point (F Q : Matrix (Fin 4) (Fin 4) ℚ)
    (prior : StateAndCovariance 4) (data : List (Fin 2 → ℚ))
    (out : List ((Fin 4 → ℚ) × StateAndCovariance 4))
    (hrun : ekfLoop F Q prior data = some out) :
    (∀ q0, out[0]? = some q0 → q0.1 = prior.state) ∧
    (∀ k qk qk1, out[k]? = some qk → out[k + 1]? = some qk1 →
      qk1.1 = qk.2.state) := by
  induction data generalizing prior out with
  | nil =>
    simp only [ekfLoop, Option.some.injEq] at hrun
    subst hrun
    constructor
    · intro q0 h0
      simp at h0
    · intro k qk qk1 h1 h2
      simp at h1
  | cons z rest ih =>
    simp only [ekfLoop] at hrun
    rcases hstep : kfnc_step F Q (linearize_at prior.state) prior z
      with _ | est
    · rw [hstep] at hrun; simp at hrun
    · rw [hstep] at hrun
      simp only [] at hrun
      rcases hrec : ekfLoop F Q est rest with _ | out2
      · rw [hrec] at hrun; simp at hrun
      · rw [hrec] at hrun
        simp only [Option.map_some', Option.some.injEq] at hrun
        subst hrun
        obtain ⟨ih1, ih2⟩ := ih est out2 hrec
        constructor
        · intro q0 h0
          simp only [List.getElem?_cons_zero, Option.some.injEq] at h0
          subst h0
          rfl
        · intro k qk qk1 h1 h2
          cases k with
          | zero =>
            simp only [List.getElem?_cons_zero, Option.some.injEq] at h1
            subst h1
            simp only [List.getElem?_cons_succ] at h2
            exact ih1 qk1 h2
          | succ j =>
            simp only [List.getElem?_cons_succ] at h1 h2
            exact ih2 j qk qk1 h1 h2

/-- Witness for C7 (amended): in the concrete one-step run the recorded
linearization point is the prior's state. -/
theorem C7_linearization_point_witness :
    (([(priorEKF.state, predictSC fCV 0 priorEKF)] :
        List ((Fin 4 → ℚ) × StateAndCovariance 4))[0]?).map Prod.fst =
      some priorEKF.state := by
  have h := (C7_linearization_point fCV 0 priorEKF [![0, 0]] _ ekfLoop_one).1
  simpa using h (priorEKF.state, predictSC fCV 0 priorEKF) rfl

/-! ### `src/highpass/src/lib.rs` -/

/-- The exact rational value of the `f32` constant `core::f32::consts::PI`
(bit pattern `0x40490FDB`, i.e. `13176795 · 2⁻²²`). -/
def pi32 : ℚ := 13176795 / 4194304

/-- Loop body of `highpass_filter` (`src/highpass/src/lib.rs` lines
13–16): `data[i] = alpha * (data[i-1] + data[i] - data[i-1])`, where
`data[i-1]` is the previous, already-overwritten output sample. -/
def highpassLoop (alpha : ℚ) : ℚ → List ℚ → List ℚ
  | _, [] => []
  | prev, x :: rest =>
    alpha * (prev + x - prev) ::
      highpassLoop alpha (alpha * (prev + x - prev)) rest

/-- `src/highpass/src/lib.rs`, `highpass_filter`:
`rc = 1/(cutoff_frequency·2·π)`, `dt = 1/sampling_rate`,
`alpha = rc/(rc+dt)`; `data[0] *= 1.0` (an index panic on an empty slice,
modelled `none`), then the loop overwrites `data[1..]` in place. -/
def highpass_filter (data : List ℚ) (sampling_rate cutoff_frequency : ℚ) :
    Option (List ℚ) :=
  let rc := 1 / (cutoff_frequency * 2 * pi32)
  let dt := 1 / sampling_rate
  let alpha := rc / (rc + dt)
  match data with
  | [] => none
  | x :: rest => some (x * 1 :: highpassLoop alpha (x * 1) rest)

/-- The loop preserves length. -/
theorem highpassLoop_length (alpha : ℚ) :
    ∀ (l : List ℚ) (prev : ℚ),
      (highpassLoop alpha prev l).length = l.length := by
  intro l
  induction l with
  | nil => intro prev; rfl
  | cons x rest ih => intro prev; simp [highpassLoop, ih]

/-- Each loop output sample is `alpha` times the input sample at the same
index: the `prev` terms cancel exactly. -/
theorem highpassLoop_getElem (alpha : ℚ) :
    ∀ (l : List ℚ) (prev : ℚ) (i : ℕ),
      (highpassLoop alpha prev l)[i]? = (l[i]?).map (fun x => alpha * x) := by
  intro l
  induction l with
  | nil => intro prev i; simp [highpassLoop]
  | cons x rest ih =>
    intro prev i
    cases i with
    | zero => simp [highpassLoop]
    | succ j => simp [highpassLoop, ih]

/-- C10: on every non-empty input, `highpass_filter` keeps `data[0]`
unchanged and replaces each later `data[i]` by `alpha · data[i]` (its
original value), `alpha = rc/(rc+dt)`: the `data[i-1]` terms of the
recurrence cancel, so each output sample depends only on the input sample
at the same index — uniform attenuation, not a first-order high-pass
recurrence. -/
theorem C10_highpass_uniform (data : List ℚ)
    (sampling_rate cutoff_frequency : ℚ) (hne : data ≠ []) :
    ∃ out, highpass_filter data sampling_rate cutoff_frequency = some out ∧
      out.length = data.length ∧
      out[0]? = data[0]? ∧
      ∀ i, out[i + 1]? = (data[i + 1]?).map
        (fun x => (1 / (cutoff_frequency * 2 * pi32)) /
          (1 / (cutoff_frequency * 2 * pi32) + 1 / sampling_rate) * x) := by
  rcases data with _ | ⟨x, rest⟩
  · exact absurd rfl hne
  · refine ⟨_, rfl, ?_, ?_, ?_⟩
    · simp [highpassLoop_length]
    · simp
    · intro i
      simpa using highpassLoop_getElem _ rest (x * 1) i

/-- Witness for C10 at the concrete input `[1, 2]` with sampling rate `10`
and cutoff `5`. -/
theorem C10_highpass_uniform_witness :
    ∃ out, highpass_filter [1, 2] 10 5 = some out ∧
      out.length = ([(1:ℚ), 2]).length ∧
      out[0]? = ([(1:ℚ), 2])[0]? ∧
      ∀ i, out[i + 1]? = (([(1:ℚ), 2])[i + 1]?).map
        (fun x => (1 / (5 * 2 * pi32)) /
          (1 / (5 * 2 * pi32) + 1 / 10) * x) :=
  C10_highpass_uniform [1, 2] 10 5 (by simp)

/-- C6: the one-dimensional run `F=[1], Q=[0], H=[1], R=[1]`, initial
state `0`, initial covariance `1`, observations `[1, 1, 1]` produces
filtered state/covariance `(1/2, 1/2)`, `(2/3, 1/3)`, `(3/4, 1/4)` at
steps 1–3, and the gains at the three predicted estimates are `1/2`,
`1/3`, `1/4` — exact rational values. -/
theorem C6_concrete_run :
    filterRun kf1d [![1], ![1], ![1]] =
      some ([{ x := ![1/2], p := !![1/2] },
             { x := ![2/3], p := !![1/3] },
             { x := ![3/4], p := !![1/4] }],
            [st1d,
             { x := ![1/2], p := !![1/2] },
             { x := ![2/3], p := !![1/3] },
             { x := ![3/4], p := !![1/4] }]) ∧
    kalman_gain kf1d st1d = some !![1/2] ∧
    kalman_gain kf1d { x := ![1/2], p := !![1/2] } = some !![1/3] ∧
    kalman_gain kf1d { x := ![2/3], p := !![1/3] } = some !![1/4] := by
  refine ⟨kf1d_run_three, ?_, ?_, ?_⟩
  · have e := kalman_gain_fin_one 0 1 1 1 0 1 0 1 (by norm_num)
    simp only [kf1d, st1d]
    rw [e]
    norm_num
  · have e := kalman_gain_fin_one 0 1 1 1 0 1 (1/2) (1/2) (by norm_num)
    simp only [kf1d]
    rw [e]
    norm_num
  · have e := kalman_gain_fin_one 0 1 1 1 0 1 (2/3) (1/3) (by norm_num)
    simp only [kf1d]
    rw [e]
    norm_num

end FiltersEmbedded
